import Mathlib

/-!
Verification development for the queue-based ingestion and orchestration
pipeline of the nocturnal-archive repository.

The source components modelled here are:
  * `src/core/queue_handler.rs`      — priority/retry/dead-letter job queue
  * `src/core/document_processor.rs` — document → text → chunks pipeline
  * `src/core/research_manager.rs`   — research-session drain loop
  * `src/core/error.rs`, `src/core/lib.rs` — error and data types

The external key/value store with list semantics (redis) is modelled as a
pure in-memory state: `lpush` prepends to a Lean list, `rpop` removes the
last element, and string keys map to optional string values.  Transport
failures of the store are outside the model (the store is reliable), so
operations that in the source return `Result` only because of transport
or serialization errors are total here; where the source's success /
error distinction carries meaning (`retry`, `get_research_status`,
`process_document`) the embedding keeps the `Except` structure.
Serialization round-trips (serde_json `to_string` / `from_str` of values
the program itself produced) are modelled as the identity, so the queue
lists hold deserialized values directly.
-/

/-- The error enum of `src/core/error.rs` (`ProcessingError`). -/
inductive ProcessingError where
  | DocumentProcessing (msg : String)
  | TextExtraction (msg : String)
  | Database (msg : String)
  | Queue (msg : String)
  | InvalidInput (msg : String)
  | System (msg : String)
deriving DecidableEq

/-- The `QueueItem` from `src/core/queue_handler.rs`.  `i32` fields are
modelled as `Int` (no claim depends on 32-bit overflow) and the arbitrary
JSON `payload` as an opaque `String`. -/
structure QueueItem where
  id : String
  priority : Int
  retry_count : Int
  payload : String
deriving DecidableEq

/-- The three named store lists used by `QueueHandler`.  The head of each
Lean list is the left end of the store list. -/
structure QueueState where
  processing_queue : List QueueItem
  retry_queue : List QueueItem
  dead_letter_queue : List QueueItem
deriving DecidableEq

/-- The configuration of `QueueHandler` (queue names are fixed by the
state above; only `max_retries` matters to behaviour). -/
structure QueueHandler where
  max_retries : Int

/-- Store `LPUSH`: prepend at the left end of a list. -/
def lpush (x : α) (l : List α) : List α := x :: l

/-- Store `RPOP`: remove and return the element at the right end. -/
def rpop : List α → Option (α × List α)
  | [] => none
  | x :: xs =>
    match rpop xs with
    | none => some (x, [])
    | some (y, rest) => some (y, x :: rest)

/-- The `QueueHandler::enqueue`: push the item onto `processing_queue`.
No side effect on `retry_count`. -/
def enqueue (item : QueueItem) (s : QueueState) : QueueState :=
  { s with processing_queue := lpush item s.processing_queue }

/-- The `QueueHandler::dequeue`: pop one item from `processing_queue`,
`none` if empty. -/
def dequeue (s : QueueState) : Option (QueueItem × QueueState) :=
  match rpop s.processing_queue with
  | none => none
  | some (item, rest) => some (item, { s with processing_queue := rest })

/-- The `QueueHandler::move_to_dead_letter`: push the item onto the fixed
`dead_letter_queue`. -/
def move_to_dead_letter (item : QueueItem) (s : QueueState) : QueueState :=
  { s with dead_letter_queue := lpush item s.dead_letter_queue }

/-- The `QueueHandler::retry`: increment `retry_count`; at or past
`max_retries` the item is dead-lettered and the call still returns `.ok`,
otherwise the incremented item is pushed onto `retry_queue`. -/
def retry (h : QueueHandler) (item : QueueItem) (s : QueueState) :
    Except ProcessingError QueueState :=
  let item := { item with retry_count := item.retry_count + 1 }
  if item.retry_count ≥ h.max_retries then
    .ok (move_to_dead_letter item s)
  else
    .ok { s with retry_queue := lpush item s.retry_queue }

/-- The body of the `while let Some(data) = rpop(retry_queue)` loop of
`QueueHandler::process_retries`, with fuel bounding the number of loop
iterations.  Each popped item has `priority` incremented by 1 and is
re-submitted through `enqueue`. -/
def processRetriesAux : Nat → QueueState → QueueState
  | 0, s => s
  | n + 1, s =>
    match rpop s.retry_queue with
    | none => s
    | some (item, rest) =>
      processRetriesAux n
        (enqueue { item with priority := item.priority + 1 }
          { s with retry_queue := rest })

/-- The `QueueHandler::process_retries`: drain `retry_queue` entirely.  A pop
removes one element, so `retry_queue.length` iterations of fuel always
suffice to reach the empty queue. -/
def process_retries (s : QueueState) : QueueState :=
  processRetriesAux s.retry_queue.length s

/-- Repeatedly call `dequeue`, collecting the returned items in order. -/
def drainFuel : Nat → QueueState → List QueueItem
  | 0, _ => []
  | n + 1, s =>
    match dequeue s with
    | none => []
    | some (item, s') => item :: drainFuel n s'

/-- Drain `processing_queue` by successive `dequeue` calls. -/
def drain (s : QueueState) : List QueueItem :=
  drainFuel s.processing_queue.length s

/-- Enqueue a sequence of items left to right. -/
def enqueueAll (items : List QueueItem) (s : QueueState) : QueueState :=
  items.foldl (fun acc item => enqueue item acc) s

/-- The empty queue state. -/
def emptyQueueState : QueueState := ⟨[], [], []⟩

-- ### Reachable queue-handler configurations
/-- A queue state together with the items an external worker has dequeued
but not yet finished (the only items a caller can legitimately pass back
to `retry`). -/
structure QHConfig where
  queues : QueueState
  inflight : List QueueItem
deriving DecidableEq

/-- One step of the `QueueHandler` protocol: a producer enqueues a fresh
item (`retry_count = 0`, per the data model), a worker dequeues an item,
a worker retries a previously dequeued item, or `process_retries` runs. -/
inductive QStep (h : QueueHandler) : QHConfig → QHConfig → Prop where
  | enq (item : QueueItem) (s : QueueState) (fl : List QueueItem)
      (h0 : item.retry_count = 0) :
      QStep h ⟨s, fl⟩ ⟨enqueue item s, fl⟩
  | deq (item : QueueItem) (s s' : QueueState) (fl : List QueueItem)
      (hd : dequeue s = some (item, s')) :
      QStep h ⟨s, fl⟩ ⟨s', item :: fl⟩
  | rty (item : QueueItem) (s s' : QueueState) (fl : List QueueItem)
      (hmem : item ∈ fl) (hr : retry h item s = .ok s') :
      QStep h ⟨s, fl⟩ ⟨s', fl.erase item⟩
  | procRetries (s : QueueState) (fl : List QueueItem) :
      QStep h ⟨s, fl⟩ ⟨process_retries s, fl⟩

/-- Configurations reachable from the empty initial state by `QStep`s. -/
inductive QReachable (h : QueueHandler) : QHConfig → Prop where
  | init : QReachable h ⟨emptyQueueState, []⟩
  | step {a b : QHConfig} : QReachable h a → QStep h a b → QReachable h b

/-- The inductive invariant behind C3: every item awaiting re-submission
in `retry_queue` is strictly below the retry bound, and every item in
`processing_queue` or held by a worker is either fresh or below the
bound. -/
def RetryInv (h : QueueHandler) (c : QHConfig) : Prop :=
  (∀ item ∈ c.queues.retry_queue, item.retry_count < h.max_retries)
  ∧ (∀ item ∈ c.queues.processing_queue,
      item.retry_count = 0 ∨ item.retry_count < h.max_retries)
  ∧ (∀ item ∈ c.inflight,
      item.retry_count = 0 ∨ item.retry_count < h.max_retries)

-- ### Document processor (`src/core/document_processor.rs`, `src/core/lib.rs`)
/-- The dynamic (boxed) error type `Box<dyn Error + Send + Sync>` of
`src/core/lib.rs`, restricted to the concrete error values that can flow
out of `DocumentProcessor::process_document`: the `FromUtf8Error` of a
failed `String::from_utf8` (carrying the offending bytes), a boxed
pdf-extract failure, or a boxed `ProcessingError` (representable in the
type, though no path in `document_processor.rs` constructs one). -/
inductive DynError where
  | fromUtf8 (invalidBytes : List Nat)
  | pdf (msg : String)
  | boxedProcessing (e : ProcessingError)
deriving DecidableEq

/-- The `DocumentMetadata` from `src/core/lib.rs`; the chrono timestamp is
modelled as an integer epoch value. -/
structure DocumentMetadata where
  filename : String
  content_type : String
  size : Nat
  created_at : Int
deriving DecidableEq

/-- The `Document` from `src/core/lib.rs`; `content: Vec<u8>` is a byte
list. -/
structure Document where
  id : String
  content : List Nat
  metadata : DocumentMetadata
deriving DecidableEq

/-- The `TextChunk` from `src/core/lib.rs`; Rust `String`s are modelled as
`List Char`. -/
structure TextChunk where
  content : List Char
  index : Nat
deriving DecidableEq

/-- The `ProcessedDocument` from `src/core/lib.rs`. -/
structure ProcessedDocument where
  doc_id : String
  text_content : List Char
  chunks : List TextChunk
  metadata : DocumentMetadata
deriving DecidableEq

/-- A UTF-8 continuation byte: `0x80..=0xBF`. -/
def isCont (b : Nat) : Prop := 0x80 ≤ b ∧ b < 0xC0

instance (b : Nat) : Decidable (isCont b) :=
  inferInstanceAs (Decidable (0x80 ≤ b ∧ b < 0xC0))

/-- Rust `String::from_utf8` on a byte sequence: strict UTF-8 decoding,
rejecting stray continuation bytes, truncated sequences, overlong
encodings, surrogate code points (`0xD800..=0xDFFF`) and code points
above `0x10FFFF`, exactly as the Rust standard library does. -/
def utf8Decode : List Nat → Option (List Char)
  | [] => some []
  | b :: rest =>
    if b < 0x80 then
      match utf8Decode rest with
      | some cs => some (Char.ofNat b :: cs)
      | none => none
    else if b < 0xC2 then
      none
    else if b < 0xE0 then
      match rest with
      | b2 :: rest2 =>
        if isCont b2 then
          match utf8Decode rest2 with
          | some cs => some (Char.ofNat ((b - 0xC0) * 0x40 + (b2 - 0x80)) :: cs)
          | none => none
        else none
      | [] => none
    else if b < 0xF0 then
      match rest with
      | b2 :: b3 :: rest3 =>
        if isCont b2 ∧ isCont b3 ∧ (b = 0xE0 → 0xA0 ≤ b2) ∧ (b = 0xED → b2 < 0xA0) then
          match utf8Decode rest3 with
          | some cs =>
            some (Char.ofNat ((b - 0xE0) * 0x1000 + (b2 - 0x80) * 0x40 + (b3 - 0x80)) :: cs)
          | none => none
        else none
      | _ => none
    else if b < 0xF5 then
      match rest with
      | b2 :: b3 :: b4 :: rest4 =>
        if isCont b2 ∧ isCont b3 ∧ isCont b4 ∧ (b = 0xF0 → 0x90 ≤ b2) ∧ (b = 0xF4 → b2 < 0x90) then
          match utf8Decode rest4 with
          | some cs =>
            some (Char.ofNat ((b - 0xF0) * 0x40000 + (b2 - 0x80) * 0x1000
              + (b3 - 0x80) * 0x40 + (b4 - 0x80)) :: cs)
          | none => none
        else none
      | _ => none
    else none

/-- Rust `str::split('\n')`: split a character sequence at every newline.
A sequence with no newline yields one segment; the empty sequence yields
one empty segment, matching Rust `"".split('\n') == [""]`. -/
def splitNl : List Char → List (List Char)
  | [] => [[]]
  | c :: rest =>
    if c = '\n' then
      [] :: splitNl rest
    else
      match splitNl rest with
      | [] => [[c]]
      | seg :: segs => (c :: seg) :: segs

/-- Join segments with a newline separator (the inverse of `splitNl`). -/
def joinNl : List (List Char) → List Char
  | [] => []
  | [s] => s
  | s :: rest => s ++ '\n' :: joinNl rest

/-- The `DocumentProcessor::create_chunks`: split on `'\n'` and enumerate,
one `TextChunk` per segment with its 0-based position as `index`. -/
def create_chunks (text : List Char) : List TextChunk :=
  (splitNl text).enum.map fun p => TextChunk.mk p.2 p.1

/-- The `DocumentProcessor::extract_pdf_text`: delegate to the external
pdf-extract collaborator, boxing its failure. -/
def extract_pdf_text (pdfExtract : List Nat → Except String (List Char))
    (content : List Nat) : Except DynError (List Char) :=
  match pdfExtract content with
  | .ok text => .ok text
  | .error e => .error (.pdf e)

/-- The `DocumentProcessor::queue_for_processing`: push the serialized
processed document onto the `processing_queue` list of the store
(serialization round-trip modelled as identity). -/
def queue_for_processing (doc : ProcessedDocument)
    (queue : List ProcessedDocument) : List ProcessedDocument :=
  lpush doc queue

/-- The `DocumentProcessor::process_document`: select the extraction strategy
by `content_type` (`application/pdf` → collaborator, anything else →
UTF-8 decode, whose failure propagates as the boxed `FromUtf8Error`),
chunk the text, assemble the `ProcessedDocument` and queue it. -/
def process_document (pdfExtract : List Nat → Except String (List Char))
    (doc : Document) (queue : List ProcessedDocument) :
    Except DynError (ProcessedDocument × List ProcessedDocument) :=
  let extracted : Except DynError (List Char) :=
    match doc.metadata.content_type with
    | "application/pdf" => extract_pdf_text pdfExtract doc.content
    | _ =>
      match utf8Decode doc.content with
      | some text => .ok text
      | none => .error (.fromUtf8 doc.content)
  match extracted with
  | .error e => .error e
  | .ok text =>
    let chunks := create_chunks text
    let processed : ProcessedDocument := ⟨doc.id, text, chunks, doc.metadata⟩
    .ok (processed, queue_for_processing processed queue)

-- ### Research manager (`src/core/research_manager.rs`)
/-- The `ResearchStatus` from `src/core/research_manager.rs`. -/
inductive ResearchStatus where
  | Initializing
  | SearchingPapers
  | ProcessingDocuments
  | BuildingKnowledge
  | Completed
  | Error
deriving DecidableEq

/-- The `ResearchSession` from `src/core/research_manager.rs`; timestamps as
integer epoch values, the `f32` completion percentage kept as `Float`
(inert data, no claim computes with it). -/
structure ResearchSession where
  id : String
  topic : String
  status : ResearchStatus
  created_at : Int
  updated_at : Int
  papers_found : Int
  papers_processed : Int
  completion_percentage : Float

/-- The `ResearchProgress` from `src/core/research_manager.rs`. -/
structure ResearchProgress where
  papers_total : Int
  papers_processed : Int
  papers_failed : Int
  current_phase : String
  last_processed : Option String
deriving DecidableEq

/-- The store state the research manager touches: the `research_queue`
list (holding deserialized sessions; every entry was produced by
serializing a session) and the string key/value records. -/
structure RState where
  research_queue : List ResearchSession
  kv : String → Option String

/-- serde_json of a unit `ResearchStatus` variant: the quoted variant
name. -/
def statusJson : ResearchStatus → String
  | .Initializing => "\"Initializing\""
  | .SearchingPapers => "\"SearchingPapers\""
  | .ProcessingDocuments => "\"ProcessingDocuments\""
  | .BuildingKnowledge => "\"BuildingKnowledge\""
  | .Completed => "\"Completed\""
  | .Error => "\"Error\""

/-- The store key `research:{id}:status`. -/
def statusKey (sessionId : String) : String :=
  "research:" ++ sessionId ++ ":status"

/-- The store key `research:{id}:progress`. -/
def progressKey (sessionId : String) : String :=
  "research:" ++ sessionId ++ ":progress"

/-- The `ResearchManager::update_session_status`: `SET research:{id}:status`
to the serialized status. -/
def update_session_status (sessionId : String) (status : ResearchStatus)
    (s : RState) : RState :=
  { s with kv := fun k =>
      if k = statusKey sessionId then some (statusJson status) else s.kv k }

/-- The minimal model of the redis crate's error value, as it reaches the
`From<redis::RedisError> for ProcessingError` conversion. -/
structure RedisError where
  description : String
deriving DecidableEq

/-- The `GET key` read into a Rust `String`: a missing key yields a nil
response, which the redis crate's `FromRedisValue for String` turns into
a type-mismatch `RedisError` (the description text stands in for the
library's message). -/
def redisGetString (kv : String → Option String) (key : String) :
    Except RedisError String :=
  match kv key with
  | some v => .ok v
  | none => .error ⟨"response was nil: expected string"⟩

/-- The `From<redis::RedisError> for ProcessingError` in `src/core/error.rs`:
every store error becomes `ProcessingError::Queue`. -/
def processingErrorOfRedis (e : RedisError) : ProcessingError :=
  .Queue e.description

/-- The `ResearchManager::get_research_status`: `GET research:{id}:progress`
(a store failure propagates through the `From` conversion above), then
deserialize with serde_json — modelled as the external parameter `deser`,
whose failure message feeds the `System` error. -/
def get_research_status (deser : String → Except String ResearchProgress)
    (kv : String → Option String) (sessionId : String) :
    Except ProcessingError ResearchProgress :=
  match redisGetString kv (progressKey sessionId) with
  | .error e => .error (processingErrorOfRedis e)
  | .ok progress =>
    match deser progress with
    | .ok p => .ok p
    | .error e => .error (.System ("Failed to parse progress: " ++ e))

/-- Modelled from the spec: the three research-phase collaborators
(`search_papers`, `process_documents`, `build_knowledge_base`) are
unimplemented stubs in `src/core/research_manager.rs` (each returns `Ok`
unconditionally); §6 of the spec treats them as external collaborators
with contract `run_phase(session) -> Result<(), PhaseError>`, so they are
modelled as injected fallible functions of the session.  This runs them
in the fixed source order, stopping at the first failure. -/
def runPhases (searchPapers processDocs buildKnowledge :
    ResearchSession → Except ProcessingError Unit)
    (session : ResearchSession) : Except ProcessingError Unit :=
  match searchPapers session with
  | .error e => .error e
  | .ok _ =>
    match processDocs session with
    | .error e => .error e
    | .ok _ => buildKnowledge session

/-- The `ResearchManager::process_research_session`: persist the
`SearchingPapers` transition, then run the three phases in order.  The
status write survives a phase failure (it already happened on the store
when the error propagates with `?`). -/
def process_research_session (searchPapers processDocs buildKnowledge :
    ResearchSession → Except ProcessingError Unit)
    (session : ResearchSession) (s : RState) :
    Except ProcessingError Unit × RState :=
  let s := update_session_status session.id .SearchingPapers s
  (runPhases searchPapers processDocs buildKnowledge session, s)

/-- The body of the `while let Some(session_data) = rpop(research_queue)`
loop of `ResearchManager::process_research_queue`, with fuel bounding the
iterations: pop a session, process it, and persist `Completed` on
success or `Error` on failure — then continue with the next session
either way. -/
def processResearchAux (searchPapers processDocs buildKnowledge :
    ResearchSession → Except ProcessingError Unit) :
    Nat → RState → Except ProcessingError Unit × RState
  | 0, s => (.ok (), s)
  | n + 1, s =>
    match rpop s.research_queue with
    | none => (.ok (), s)
    | some (session, rest) =>
      let s1 : RState := { s with research_queue := rest }
      match process_research_session searchPapers processDocs buildKnowledge
          session s1 with
      | (.ok _, s2) =>
        processResearchAux searchPapers processDocs buildKnowledge n
          (update_session_status session.id .Completed s2)
      | (.error _, s2) =>
        processResearchAux searchPapers processDocs buildKnowledge n
          (update_session_status session.id .Error s2)

/-- The `ResearchManager::process_research_queue`: drain `research_queue`
(each iteration pops one entry, so `research_queue.length` fuel always
reaches the empty queue). -/
def process_research_queue (searchPapers processDocs buildKnowledge :
    ResearchSession → Except ProcessingError Unit) (s : RState) :
    Except ProcessingError Unit × RState :=
  processResearchAux searchPapers processDocs buildKnowledge
    s.research_queue.length s

/-- The terminal status the drain loop persists for a session, as a
function of its phase outcome. -/
def finalStatus (searchPapers processDocs buildKnowledge :
    ResearchSession → Except ProcessingError Unit)
    (session : ResearchSession) : ResearchStatus :=
  match runPhases searchPapers processDocs buildKnowledge session with
  | .ok _ => .Completed
  | .error _ => .Error

/-- A concrete always-succeeding phase collaborator (for the C9
witness). -/
def phaseOk : ResearchSession → Except ProcessingError Unit :=
  fun _ => .ok ()

/-- A concrete second-phase collaborator failing exactly for session id
`"sa"` (for the C9 witness). -/
def phaseFailSa : ResearchSession → Except ProcessingError Unit :=
  fun sess => if sess.id = "sa" then .error (.System "boom") else .ok ()

/-- A concrete two-session store state (for the C9 witness). -/
def twoSessionState : RState :=
  RState.mk
    [ResearchSession.mk "sa" "t1" .Initializing 0 0 0 0 0.0,
     ResearchSession.mk "sb" "t2" .Initializing 0 0 0 0 0.0]
    (fun _ => none)

-- ### Basic lemmas about the store list operations
theorem rpop_eq_none {l : List α} : rpop l = none ↔ l = [] := by
  constructor
  · intro h
    cases l with
    | nil => rfl
    | cons x xs =>
      simp only [rpop] at h
      cases hx : rpop xs with
      | none => simp [hx] at h
      | some p => simp [hx] at h
  · intro h; subst h; rfl

theorem rpop_append_singleton (l : List α) (x : α) :
    rpop (l ++ [x]) = some (x, l) := by
  induction l with
  | nil => rfl
  | cons y ys ih => simp [rpop, ih]

theorem rpop_some_mem {l rest : List α} {x : α} (h : rpop l = some (x, rest)) :
    x ∈ l ∧ ∀ y ∈ rest, y ∈ l := by
  induction l generalizing rest with
  | nil => simp [rpop] at h
  | cons a as ih =>
    simp only [rpop] at h
    cases hx : rpop as with
    | none =>
      rw [hx] at h
      simp only [Option.some.injEq, Prod.mk.injEq] at h
      obtain ⟨rfl, rfl⟩ := h
      simp
    | some p =>
      rw [hx] at h
      simp only [Option.some.injEq, Prod.mk.injEq] at h
      obtain ⟨rfl, rfl⟩ := h
      obtain ⟨hm, hr⟩ := ih hx
      refine ⟨List.mem_cons_of_mem _ hm, ?_⟩
      intro y hy
      cases hy with
      | head => exact List.mem_cons_self _ _
      | tail _ hy => exact List.mem_cons_of_mem _ (hr _ hy)

theorem rpop_some_length {l rest : List α} {x : α}
    (h : rpop l = some (x, rest)) : l.length = rest.length + 1 := by
  induction l generalizing rest with
  | nil => simp [rpop] at h
  | cons a as ih =>
    simp only [rpop] at h
    cases hx : rpop as with
    | none =>
      rw [hx] at h
      simp only [Option.some.injEq, Prod.mk.injEq] at h
      obtain ⟨rfl, rfl⟩ := h
      have : as = [] := rpop_eq_none.mp hx
      subst this; rfl
    | some p =>
      rw [hx] at h
      simp only [Option.some.injEq, Prod.mk.injEq] at h
      obtain ⟨rfl, rfl⟩ := h
      simp [ih hx]

-- ### Closed form of `process_retries`
theorem processRetriesAux_eq (l : List QueueItem) :
    ∀ s : QueueState, s.retry_queue = l →
      processRetriesAux l.length s =
        { s with retry_queue := [],
                 processing_queue :=
                   l.map (fun item => { item with priority := item.priority + 1 })
                     ++ s.processing_queue } := by
  induction l using List.reverseRecOn with
  | nil =>
    intro s hs
    simp only [List.length_nil, processRetriesAux]
    cases s; simp_all
  | append_singleton l' x ih =>
    intro s hs
    rw [List.length_append, List.length_singleton, processRetriesAux]
    rw [hs, rpop_append_singleton]
    have := ih (enqueue { x with priority := x.priority + 1 }
      { s with retry_queue := l' }) (by simp [enqueue])
    simp only []
    rw [this]
    simp [enqueue, lpush, List.append_assoc]

theorem process_retries_eq (s : QueueState) :
    process_retries s =
      { s with retry_queue := [],
               processing_queue :=
                 s.retry_queue.map
                   (fun item => { item with priority := item.priority + 1 })
                   ++ s.processing_queue } := by
  unfold process_retries
  exact processRetriesAux_eq s.retry_queue s rfl

theorem qstep_preserves_inv {h : QueueHandler} {a b : QHConfig}
    (st : QStep h a b) (inv : RetryInv h a) : RetryInv h b := by
  obtain ⟨invR, invP, invF⟩ := inv
  cases st with
  | enq item s fl h0 =>
    refine ⟨invR, ?_, invF⟩
    intro it hit
    simp only [enqueue, lpush, List.mem_cons] at hit
    cases hit with
    | inl he => subst he; exact Or.inl h0
    | inr hm => exact invP it hm
  | deq item s s' fl hd =>
    simp only [dequeue] at hd
    cases hp : rpop s.processing_queue with
    | none => rw [hp] at hd; simp at hd
    | some p =>
      rw [hp] at hd
      simp only [Option.some.injEq, Prod.mk.injEq] at hd
      obtain ⟨rfl, rfl⟩ := hd
      obtain ⟨hm, hr⟩ := rpop_some_mem hp
      refine ⟨invR, ?_, ?_⟩
      · intro it hit
        exact invP it (hr it hit)
      · intro it hit
        cases hit with
        | head => exact invP _ hm
        | tail _ hy => exact invF _ hy
  | rty item s s' fl hmem hr =>
    simp only [retry] at hr
    split at hr
    case isTrue hcond =>
      simp only [Except.ok.injEq] at hr
      subst hr
      exact ⟨invR, invP, fun it hit => invF it (List.mem_of_mem_erase hit)⟩
    case isFalse hcond =>
      simp only [Except.ok.injEq] at hr
      subst hr
      refine ⟨?_, invP, fun it hit => invF it (List.mem_of_mem_erase hit)⟩
      intro it hit
      simp only [lpush, List.mem_cons] at hit
      cases hit with
      | inl he =>
        subst he
        simp only [ge_iff_le, not_le] at hcond
        simpa using hcond
      | inr hm => exact invR it hm
  | procRetries s fl =>
    rw [process_retries_eq]
    refine ⟨?_, ?_, invF⟩
    · intro it hit
      simp at hit
    · intro it hit
      simp only [List.mem_append, List.mem_map] at hit
      cases hit with
      | inl hm =>
        obtain ⟨src, hsrc, rfl⟩ := hm
        exact Or.inr (invR src hsrc)
      | inr hm => exact invP it hm

theorem qreachable_inv {h : QueueHandler} {c : QHConfig}
    (hr : QReachable h c) : RetryInv h c := by
  induction hr with
  | init =>
    refine ⟨?_, ?_, ?_⟩ <;> intro it hit <;> simp [emptyQueueState] at hit
  | step _ st ih => exact qstep_preserves_inv st ih

theorem qstep_dead_letter_suffix {h : QueueHandler} {a b : QHConfig}
    (st : QStep h a b) :
    a.queues.dead_letter_queue.IsSuffix b.queues.dead_letter_queue := by
  cases st with
  | enq item s fl h0 => exact List.suffix_refl _
  | deq item s s' fl hd =>
    simp only [dequeue] at hd
    cases hp : rpop s.processing_queue with
    | none => rw [hp] at hd; simp at hd
    | some p =>
      rw [hp] at hd
      simp only [Option.some.injEq, Prod.mk.injEq] at hd
      obtain ⟨rfl, rfl⟩ := hd
      exact List.suffix_refl _
  | rty item s s' fl hmem hr =>
    simp only [retry] at hr
    split at hr
    case isTrue hcond =>
      simp only [Except.ok.injEq] at hr
      subst hr
      exact List.suffix_cons _ _
    case isFalse hcond =>
      simp only [Except.ok.injEq] at hr
      subst hr
      exact List.suffix_refl _
  | procRetries s fl =>
    rw [process_retries_eq]

-- ### Lemmas about splitting and joining
theorem splitNl_ne_nil (t : List Char) : splitNl t ≠ [] := by
  cases t with
  | nil => simp [splitNl]
  | cons c rest =>
    simp only [splitNl]
    split
    · simp
    · cases splitNl rest <;> simp

theorem joinNl_splitNl (t : List Char) : joinNl (splitNl t) = t := by
  induction t with
  | nil => rfl
  | cons c rest ih =>
    simp only [splitNl]
    split
    case isTrue hc =>
      subst hc
      cases hs : splitNl rest with
      | nil => exact absurd hs (splitNl_ne_nil rest)
      | cons seg segs =>
        rw [hs] at ih
        simp only [joinNl]
        cases segs <;> simp_all [joinNl]
    case isFalse hc =>
      cases hs : splitNl rest with
      | nil => exact absurd hs (splitNl_ne_nil rest)
      | cons seg segs =>
        rw [hs] at ih
        cases segs with
        | nil => simp_all [joinNl]
        | cons s2 ss => simp_all [joinNl]

theorem splitNl_no_newline (t : List Char) :
    ∀ seg ∈ splitNl t, '\n' ∉ seg := by
  induction t with
  | nil => intro seg hseg; simp [splitNl] at hseg; simp [hseg]
  | cons c rest ih =>
    intro seg hseg
    simp only [splitNl] at hseg
    split at hseg
    case isTrue hc =>
      cases hseg with
      | head => simp
      | tail _ hm => exact ih seg hm
    case isFalse hc =>
      cases hs : splitNl rest with
      | nil => exact absurd hs (splitNl_ne_nil rest)
      | cons s ss =>
        rw [hs] at hseg
        cases hseg with
        | head =>
          intro hmem
          cases hmem with
          | head => exact hc rfl
          | tail _ hm => exact ih s (hs ▸ List.mem_cons_self s ss) hm
        | tail _ hm => exact ih seg (hs ▸ List.mem_cons_of_mem s hm)

theorem splitNl_length (t : List Char) :
    (splitNl t).length = t.count '\n' + 1 := by
  induction t with
  | nil => simp [splitNl]
  | cons c rest ih =>
    simp only [splitNl]
    split
    case isTrue hc =>
      subst hc
      simp [List.count_cons, ih]
    case isFalse hc =>
      cases hs : splitNl rest with
      | nil => exact absurd hs (splitNl_ne_nil rest)
      | cons s ss =>
        rw [hs] at ih
        simp only [List.length_cons] at ih ⊢
        rw [List.count_cons]
        simp only [beq_iff_eq]
        rw [if_neg hc]
        omega

theorem enumFrom_map_content (n : Nat) (l : List (List Char)) :
    ((List.enumFrom n l).map fun p => TextChunk.mk p.2 p.1).map TextChunk.content
      = l := by
  induction l generalizing n with
  | nil => rfl
  | cons s ss ih => simp [List.enumFrom, ih]

theorem enumFrom_map_index (n : Nat) (l : List (List Char)) :
    ((List.enumFrom n l).map fun p => TextChunk.mk p.2 p.1).map TextChunk.index
      = List.range' n l.length := by
  induction l generalizing n with
  | nil => rfl
  | cons s ss ih => simp [List.enumFrom, List.range', ih]

theorem create_chunks_content (t : List Char) :
    (create_chunks t).map TextChunk.content = splitNl t := by
  unfold create_chunks List.enum
  exact enumFrom_map_content 0 (splitNl t)

theorem create_chunks_index (t : List Char) :
    (create_chunks t).map TextChunk.index = List.range (splitNl t).length := by
  unfold create_chunks List.enum
  rw [enumFrom_map_index 0 (splitNl t), List.range_eq_range']

-- ### Lemmas about the research drain loop
theorem statusKey_inj {a b : String} (h : statusKey a = statusKey b) :
    a = b := by
  unfold statusKey at h
  have hd := congrArg String.data h
  simp only [String.data_append] at hd
  have := List.append_cancel_right hd
  have := List.append_cancel_left this
  exact String.ext this

theorem processResearchAux_ok (p₁ p₂ p₃ :
    ResearchSession → Except ProcessingError Unit) :
    ∀ (n : Nat) (s : RState), (processResearchAux p₁ p₂ p₃ n s).1 = .ok () := by
  intro n
  induction n with
  | zero => intro s; rfl
  | succ n ih =>
    intro s
    simp only [processResearchAux]
    cases hp : rpop s.research_queue with
    | none => rfl
    | some p =>
      obtain ⟨sess, rest⟩ := p
      simp only [process_research_session]
      cases hout : runPhases p₁ p₂ p₃ sess with
      | ok u => exact ih _
      | error e => exact ih _

theorem processResearchAux_frame (p₁ p₂ p₃ :
    ResearchSession → Except ProcessingError Unit) :
    ∀ (n : Nat) (s : RState) (k : String),
      (∀ sess ∈ s.research_queue, k ≠ statusKey sess.id) →
      (processResearchAux p₁ p₂ p₃ n s).2.kv k = s.kv k := by
  intro n
  induction n with
  | zero => intro s k _; rfl
  | succ n ih =>
    intro s k h
    simp only [processResearchAux]
    cases hp : rpop s.research_queue with
    | none => rfl
    | some p =>
      obtain ⟨sess, rest⟩ := p
      obtain ⟨hm, hsub⟩ := rpop_some_mem hp
      have hk : k ≠ statusKey sess.id := h sess hm
      simp only [process_research_session]
      cases hout : runPhases p₁ p₂ p₃ sess with
      | ok u =>
        rw [ih]
        · simp [update_session_status, hk]
        · intro t ht
          exact h t (hsub t ht)
      | error e =>
        rw [ih]
        · simp [update_session_status, hk]
        · intro t ht
          exact h t (hsub t ht)

theorem processResearchAux_final_status (p₁ p₂ p₃ :
    ResearchSession → Except ProcessingError Unit)
    (l : List ResearchSession) :
    ∀ s : RState, s.research_queue = l →
      (l.map ResearchSession.id).Nodup →
      ∀ sess ∈ l,
        (processResearchAux p₁ p₂ p₃ l.length s).2.kv (statusKey sess.id)
          = some (statusJson (finalStatus p₁ p₂ p₃ sess)) := by
  induction l using List.reverseRecOn with
  | nil =>
    intro s hs hn sess hmem
    simp at hmem
  | append_singleton l' x ih =>
    intro s hs hn sess hmem
    rw [List.length_append, List.length_singleton]
    simp only [processResearchAux]
    rw [hs, rpop_append_singleton]
    simp only [process_research_session]
    have hn' : (l'.map ResearchSession.id).Nodup ∧ x.id ∉ l'.map ResearchSession.id := by
      rw [List.map_append, List.nodup_append] at hn
      refine ⟨hn.1, ?_⟩
      intro hmem2
      exact hn.2.2 hmem2 (List.mem_singleton_self _)
    have hments : ∀ t ∈ l', statusKey x.id ≠ statusKey t.id := by
      intro t ht he
      exact hn'.2 (statusKey_inj he ▸ List.mem_map_of_mem ResearchSession.id ht)
    cases hout : runPhases p₁ p₂ p₃ x with
    | ok u =>
      rcases List.mem_append.mp hmem with hml | hmx
      · exact ih _ rfl hn'.1 sess hml
      · have hx : sess = x := by simpa using hmx
        subst hx
        rw [processResearchAux_frame]
        · simp [update_session_status, finalStatus, hout]
        · intro t ht
          exact hments t ht
    | error e =>
      rcases List.mem_append.mp hmem with hml | hmx
      · exact ih _ rfl hn'.1 sess hml
      · have hx : sess = x := by simpa using hmx
        subst hx
        rw [processResearchAux_frame]
        · simp [update_session_status, finalStatus, hout]
        · intro t ht
          exact hments t ht

-- ### Claim theorems
theorem retry_eq (h : QueueHandler) (item : QueueItem) (s : QueueState) :
    retry h item s =
      if item.retry_count + 1 ≥ h.max_retries then
        .ok (move_to_dead_letter
          { item with retry_count := item.retry_count + 1 } s)
      else
        .ok { s with retry_queue :=
          (lpush ({ item with retry_count := item.retry_count + 1 })
            s.retry_queue) } :=
  rfl

/-- C1: `retry` first increments the item's `retry_count` by exactly 1;
if the incremented count has reached `max_retries` the incremented item
is pushed to `dead_letter_queue` and the call returns success, otherwise
the incremented item is pushed to `retry_queue`; in neither case does
`processing_queue` change. -/
theorem retry_increments_and_routes (h : QueueHandler) (item : QueueItem)
    (s : QueueState) (hmax : 0 ≤ h.max_retries) :
    (item.retry_count + 1 ≥ h.max_retries →
      retry h item s = .ok { s with dead_letter_queue :=
        (lpush ({ item with retry_count := item.retry_count + 1 })
          s.dead_letter_queue) })
    ∧ (item.retry_count + 1 < h.max_retries →
      retry h item s = .ok { s with retry_queue :=
        (lpush ({ item with retry_count := item.retry_count + 1 })
          s.retry_queue) })
    ∧ (∀ s', retry h item s = .ok s' →
        s'.processing_queue = s.processing_queue) := by
  refine ⟨?_, ?_, ?_⟩
  · intro hge
    rw [retry_eq, if_pos hge]
    rfl
  · intro hlt
    rw [retry_eq, if_neg (by omega)]
  · intro s' hs'
    rw [retry_eq] at hs'
    split at hs' <;>
      (simp only [Except.ok.injEq] at hs'; subst hs') <;> rfl

/-- Witness for C1 at a concrete handler, item and state. -/
theorem retry_increments_and_routes_witness :
    0 ≤ (QueueHandler.mk 2).max_retries
    ∧ ((QueueItem.mk "job-1" 0 0 "p").retry_count + 1
          ≥ (QueueHandler.mk 2).max_retries →
        retry (QueueHandler.mk 2) (QueueItem.mk "job-1" 0 0 "p") emptyQueueState
          = .ok { emptyQueueState with dead_letter_queue :=
              (lpush ({ QueueItem.mk "job-1" 0 0 "p" with retry_count :=
                (QueueItem.mk "job-1" 0 0 "p").retry_count + 1 })
                emptyQueueState.dead_letter_queue) })
    ∧ ((QueueItem.mk "job-1" 0 0 "p").retry_count + 1
          < (QueueHandler.mk 2).max_retries →
        retry (QueueHandler.mk 2) (QueueItem.mk "job-1" 0 0 "p") emptyQueueState
          = .ok { emptyQueueState with retry_queue :=
              (lpush ({ QueueItem.mk "job-1" 0 0 "p" with retry_count :=
                (QueueItem.mk "job-1" 0 0 "p").retry_count + 1 })
                emptyQueueState.retry_queue) })
    ∧ (∀ s', retry (QueueHandler.mk 2) (QueueItem.mk "job-1" 0 0 "p")
          emptyQueueState = .ok s' →
        s'.processing_queue = emptyQueueState.processing_queue) :=
  ⟨by decide,
    retry_increments_and_routes (QueueHandler.mk 2)
      (QueueItem.mk "job-1" 0 0 "p") emptyQueueState (by decide)⟩

/-- C2: `process_retries` empties `retry_queue` and re-enqueues every
item onto `processing_queue` with `priority` incremented by exactly 1;
`id`, `retry_count` and `payload` are unchanged, and the dead-letter
queue is untouched. -/
theorem processRetries_drains_and_promotes (s : QueueState) :
    (process_retries s).retry_queue = []
    ∧ (process_retries s).processing_queue =
        s.retry_queue.map (fun item => { item with priority := item.priority + 1 })
          ++ s.processing_queue
    ∧ (process_retries s).dead_letter_queue = s.dead_letter_queue
    ∧ (∀ item : QueueItem,
        ({ item with priority := item.priority + 1 } : QueueItem).id = item.id
        ∧ ({ item with priority := item.priority + 1 } : QueueItem).retry_count
            = item.retry_count
        ∧ ({ item with priority := item.priority + 1 } : QueueItem).payload
            = item.payload
        ∧ ({ item with priority := item.priority + 1 } : QueueItem).priority
            = item.priority + 1) := by
  refine ⟨?_, ?_, ?_, ?_⟩
  · rw [process_retries_eq]
  · rw [process_retries_eq]
  · rw [process_retries_eq]
  · intro item
    exact ⟨rfl, rfl, rfl, rfl⟩

/-- C3: in every reachable queue-handler configuration, every item on
`retry_queue` is strictly below `max_retries` and every item on
`processing_queue` is fresh or strictly below the bound (so an item whose
count reached the bound is never placed back on either); per operation,
`enqueue` stores the item verbatim, `process_retries` re-enqueues with
`retry_count` unchanged, `retry` stores the count incremented by one, and
no step removes anything from `dead_letter_queue`. -/
theorem queue_retry_count_invariant (h : QueueHandler) (c : QHConfig)
    (hr : QReachable h c) :
    ((∀ item ∈ c.queues.retry_queue, item.retry_count < h.max_retries)
      ∧ (∀ item ∈ c.queues.processing_queue,
          item.retry_count = 0 ∨ item.retry_count < h.max_retries))
    ∧ (∀ (item : QueueItem) (s : QueueState),
        (enqueue item s).processing_queue = item :: s.processing_queue)
    ∧ (∀ s : QueueState, (process_retries s).processing_queue =
        s.retry_queue.map (fun item => { item with priority := item.priority + 1 })
          ++ s.processing_queue)
    ∧ (∀ item : QueueItem,
        ({ item with priority := item.priority + 1 } : QueueItem).retry_count
          = item.retry_count)
    ∧ (∀ item : QueueItem,
        ({ item with retry_count := item.retry_count + 1 } : QueueItem).retry_count
          = item.retry_count + 1)
    ∧ (∀ a b : QHConfig, QStep h a b →
        a.queues.dead_letter_queue.IsSuffix b.queues.dead_letter_queue) := by
  obtain ⟨i1, i2, _⟩ := qreachable_inv hr
  refine ⟨⟨i1, i2⟩, ?_, ?_, ?_, ?_, ?_⟩
  · intro item s
    rfl
  · intro s
    rw [process_retries_eq]
  · intro item
    rfl
  · intro item
    rfl
  · intro a b st
    exact qstep_dead_letter_suffix st

/-- Witness for C3 at the initial configuration of a concrete handler. -/
theorem queue_retry_count_invariant_witness :
    QReachable (QueueHandler.mk 1) ⟨emptyQueueState, []⟩
    ∧ (((∀ item ∈ (QHConfig.mk emptyQueueState []).queues.retry_queue,
          item.retry_count < (QueueHandler.mk 1).max_retries)
      ∧ (∀ item ∈ (QHConfig.mk emptyQueueState []).queues.processing_queue,
          item.retry_count = 0 ∨ item.retry_count < (QueueHandler.mk 1).max_retries))
    ∧ (∀ (item : QueueItem) (s : QueueState),
        (enqueue item s).processing_queue = item :: s.processing_queue)
    ∧ (∀ s : QueueState, (process_retries s).processing_queue =
        s.retry_queue.map (fun item => { item with priority := item.priority + 1 })
          ++ s.processing_queue)
    ∧ (∀ item : QueueItem,
        ({ item with priority := item.priority + 1 } : QueueItem).retry_count
          = item.retry_count)
    ∧ (∀ item : QueueItem,
        ({ item with retry_count := item.retry_count + 1 } : QueueItem).retry_count
          = item.retry_count + 1)
    ∧ (∀ a b : QHConfig, QStep (QueueHandler.mk 1) a b →
        a.queues.dead_letter_queue.IsSuffix b.queues.dead_letter_queue)) :=
  ⟨QReachable.init,
    queue_retry_count_invariant (QueueHandler.mk 1) ⟨emptyQueueState, []⟩
      QReachable.init⟩

theorem enqueueAll_processing (items : List QueueItem) :
    ∀ s : QueueState,
      (enqueueAll items s).processing_queue
          = items.reverse ++ s.processing_queue
      ∧ (enqueueAll items s).retry_queue = s.retry_queue
      ∧ (enqueueAll items s).dead_letter_queue = s.dead_letter_queue := by
  induction items with
  | nil => intro s; simp [enqueueAll]
  | cons item rest ih =>
    intro s
    obtain ⟨h1, h2, h3⟩ := ih (enqueue item s)
    simp only [enqueueAll, List.foldl_cons] at h1 h2 h3 ⊢
    refine ⟨?_, ?_, ?_⟩
    · rw [h1]
      simp [enqueue, lpush]
    · rw [h2]
      rfl
    · rw [h3]
      rfl

theorem drainFuel_reverse (l : List QueueItem) :
    ∀ s : QueueState, s.processing_queue = l →
      drainFuel l.length s = l.reverse := by
  induction l using List.reverseRecOn with
  | nil =>
    intro s hs
    simp [drainFuel]
  | append_singleton l' x ih =>
    intro s hs
    rw [List.length_append, List.length_singleton, drainFuel]
    simp only [dequeue, hs, rpop_append_singleton]
    rw [ih { s with processing_queue := l' } rfl]
    simp

/-- C4: items enqueued in sequence onto an initially empty
`processing_queue` are returned by successive `dequeue` calls in exactly
the order they were pushed (FIFO), and `dequeue` on an empty
`processing_queue` returns `none` rather than an error. -/
theorem fifo_dequeue_order (items : List QueueItem) :
    drain (enqueueAll items emptyQueueState) = items
    ∧ (∀ s : QueueState, s.processing_queue = [] → dequeue s = none) := by
  constructor
  · obtain ⟨hp, _, _⟩ := enqueueAll_processing items emptyQueueState
    unfold drain
    rw [hp]
    simp only [emptyQueueState, List.append_nil] at hp ⊢
    rw [drainFuel_reverse items.reverse _ hp, List.reverse_reverse]
  · intro s hs
    simp [dequeue, hs, rpop]

/-- Witness for C4's empty-queue clause at a concrete state. -/
theorem fifo_dequeue_order_witness :
    drain (enqueueAll [QueueItem.mk "a" 0 0 "x", QueueItem.mk "b" 1 0 "y"]
        emptyQueueState)
      = [QueueItem.mk "a" 0 0 "x", QueueItem.mk "b" 1 0 "y"]
    ∧ (QueueState.mk [] [QueueItem.mk "c" 0 0 "z"] []).processing_queue = []
    ∧ dequeue (QueueState.mk [] [QueueItem.mk "c" 0 0 "z"] []) = none :=
  ⟨(fifo_dequeue_order _).1, rfl,
    (fifo_dequeue_order [QueueItem.mk "a" 0 0 "x"]).2
      (QueueState.mk [] [QueueItem.mk "c" 0 0 "z"] []) rfl⟩

/-- C5: chunking splits the text on the newline character only — one
`TextChunk` per segment, `index` equal to the segment's 0-based position,
no segment containing a newline, one more segment than there are
newlines (so empty segments are preserved) — and on
`"a\nb\n\nc"` it yields contents `["a","b","",c"]` with indices 0..3. -/
theorem create_chunks_splits_on_newline :
    (∀ text : List Char,
      (create_chunks text).map TextChunk.content = splitNl text
      ∧ (create_chunks text).map TextChunk.index
          = List.range (splitNl text).length
      ∧ (∀ seg ∈ splitNl text, '\n' ∉ seg)
      ∧ (splitNl text).length = text.count '\n' + 1)
    ∧ create_chunks ['a', '\n', 'b', '\n', '\n', 'c']
        = [TextChunk.mk ['a'] 0, TextChunk.mk ['b'] 1,
           TextChunk.mk [] 2, TextChunk.mk ['c'] 3] := by
  refine ⟨?_, by decide⟩
  intro text
  exact ⟨create_chunks_content text, create_chunks_index text,
    splitNl_no_newline text, splitNl_length text⟩

/-- Witness for C5's no-newline-in-segment clause at a concrete text and
segment. -/
theorem create_chunks_splits_on_newline_witness :
    ['x'] ∈ splitNl ['x'] ∧ '\n' ∉ (['x'] : List Char) :=
  ⟨by decide,
    (create_chunks_splits_on_newline.1 ['x']).2.2.1 ['x'] (by decide)⟩

/-- C6: the chunks of any text carry exactly the indices `0 .. n-1` in
order, and joining the chunk contents in that order with a newline
separator reconstructs the input text exactly. -/
theorem chunks_roundtrip (text : List Char) :
    (create_chunks text).map TextChunk.index
        = List.range (create_chunks text).length
    ∧ joinNl ((create_chunks text).map TextChunk.content) = text := by
  constructor
  · rw [create_chunks_index]
    congr 1
    simp [create_chunks]
  · rw [create_chunks_content, joinNl_splitNl]

/-- C7 counterexample: on a one-byte non-UTF-8 `text/plain` document,
`process_document` fails with the boxed UTF-8 decoding error, not with a
`ProcessingError::TextExtraction` value — `document_processor.rs` returns
the `FromUtf8Error` through the boxed-`dyn Error` `Result` of `lib.rs`
and no code path constructs `TextExtraction`. -/
theorem processDocument_invalid_utf8_not_textExtraction :
    process_document (fun _ => Except.error "no pdf")
        (Document.mk "d1" [0xFF] (DocumentMetadata.mk "f.txt" "text/plain" 1 0)) []
      = .error (.fromUtf8 [0xFF])
    ∧ ¬ ∃ msg, process_document (fun _ => Except.error "no pdf")
        (Document.mk "d1" [0xFF] (DocumentMetadata.mk "f.txt" "text/plain" 1 0)) []
      = .error (.boxedProcessing (.TextExtraction msg)) := by
  constructor
  · rfl
  · rintro ⟨msg, hmsg⟩
    rw [show process_document (fun _ => Except.error "no pdf")
        (Document.mk "d1" [0xFF] (DocumentMetadata.mk "f.txt" "text/plain" 1 0)) []
      = .error (.fromUtf8 [0xFF]) from rfl] at hmsg
    simp at hmsg

/-- C7 (amended): for every non-PDF document whose content bytes are not
valid UTF-8, `process_document` fails — returning the boxed UTF-8 decode
error (not a crash, and not a `ProcessingError::TextExtraction`, which
this code never produces). -/
theorem processDocument_invalid_utf8_error
    (pdfExtract : List Nat → Except String (List Char)) (doc : Document)
    (queue : List ProcessedDocument)
    (hct : doc.metadata.content_type ≠ "application/pdf")
    (hbad : utf8Decode doc.content = none) :
    process_document pdfExtract doc queue = .error (.fromUtf8 doc.content) := by
  unfold process_document
  split
  case h_1 heq => exact absurd heq hct
  case h_2 =>
    rw [hbad]

/-- Witness for C7's amended theorem at a concrete document. -/
theorem processDocument_invalid_utf8_error_witness :
    (Document.mk "d2" [0xC3] (DocumentMetadata.mk "g.bin"
        "application/octet-stream" 1 0)).metadata.content_type
      ≠ "application/pdf"
    ∧ utf8Decode [0xC3] = none
    ∧ process_document (fun _ => Except.ok [])
        (Document.mk "d2" [0xC3] (DocumentMetadata.mk "g.bin"
          "application/octet-stream" 1 0)) []
      = .error (.fromUtf8 [0xC3]) :=
  ⟨by decide, by decide,
    processDocument_invalid_utf8_error (fun _ => Except.ok [])
      (Document.mk "d2" [0xC3] (DocumentMetadata.mk "g.bin"
        "application/octet-stream" 1 0)) [] (by decide) (by decide)⟩

/-- C8 counterexample: with no persisted record for the session,
`get_research_status` fails with a `Queue` error (the redis nil-response
error routed through `From<RedisError> for ProcessingError`), not with a
`System` error as the claim states. -/
theorem getResearchStatus_missing_not_system :
    get_research_status (fun _ => Except.error "parse") (fun _ => none) "s1"
      = .error (.Queue "response was nil: expected string")
    ∧ ¬ ∃ msg, get_research_status (fun _ => Except.error "parse")
        (fun _ => none) "s1" = .error (.System msg) := by
  constructor
  · rfl
  · rintro ⟨msg, hmsg⟩
    rw [show get_research_status (fun _ => Except.error "parse")
        (fun _ => none) "s1"
      = .error (.Queue "response was nil: expected string") from rfl] at hmsg
    simp at hmsg

/-- C8 (amended): `get_research_status` reads the progress record keyed
`research:{id}:progress` and deserializes it; a missing record fails with
a `Queue` error (via the `RedisError` conversion of `error.rs`), a
malformed record fails with a `System` error, and a well-formed record is
returned deserialized. -/
theorem getResearchStatus_error_routing
    (deser : String → Except String ResearchProgress)
    (kv : String → Option String) (sessionId : String) :
    (kv (progressKey sessionId) = none →
      get_research_status deser kv sessionId
        = .error (.Queue "response was nil: expected string"))
    ∧ (∀ v e, kv (progressKey sessionId) = some v → deser v = .error e →
      get_research_status deser kv sessionId
        = .error (.System ("Failed to parse progress: " ++ e)))
    ∧ (∀ v p, kv (progressKey sessionId) = some v → deser v = .ok p →
      get_research_status deser kv sessionId = .ok p) := by
  refine ⟨?_, ?_, ?_⟩
  · intro hmiss
    simp [get_research_status, redisGetString, processingErrorOfRedis, hmiss]
  · intro v e hv he
    simp [get_research_status, redisGetString, processingErrorOfRedis, hv, he]
  · intro v p hv hp
    simp [get_research_status, redisGetString, hv, hp]

/-- Witness for C8's amended theorem at a concrete store and
deserializer. -/
theorem getResearchStatus_error_routing_witness :
    ((fun k => if k = progressKey "s2" then some "garbage" else none)
        (progressKey "s2") = some "garbage")
    ∧ ((fun (v : String) => (Except.error v : Except String ResearchProgress))
        "garbage" = Except.error "garbage")
    ∧ get_research_status
        (fun v => (Except.error v : Except String ResearchProgress))
        (fun k => if k = progressKey "s2" then some "garbage" else none) "s2"
      = .error (.System ("Failed to parse progress: " ++ "garbage")) :=
  ⟨by simp, rfl,
    (getResearchStatus_error_routing
        (fun v => (Except.error v : Except String ResearchProgress))
        (fun k => if k = progressKey "s2" then some "garbage" else none)
        "s2").2.1 "garbage" "garbage" (by simp) rfl⟩

/-- C9: draining `research_queue` never aborts on a phase failure — it
returns success, persists `Error` as the failing session's status (and
`Completed` for sessions whose phases succeed), and a second-phase
failure ends that session's processing with that error regardless of the
third collaborator.  (The phase collaborators are injected, per the
spec's external-collaborator contract; the source stubs them out.) -/
theorem research_queue_error_isolation
    (searchPapers processDocs buildKnowledge :
      ResearchSession → Except ProcessingError Unit) (s : RState)
    (hids : (s.research_queue.map ResearchSession.id).Nodup) :
    (process_research_queue searchPapers processDocs buildKnowledge s).1
        = .ok ()
    ∧ (∀ sess ∈ s.research_queue,
        (process_research_queue searchPapers processDocs buildKnowledge s).2.kv
            (statusKey sess.id)
          = some (statusJson
              (finalStatus searchPapers processDocs buildKnowledge sess)))
    ∧ (∀ sess ∈ s.research_queue,
        runPhases searchPapers processDocs buildKnowledge sess ≠ .ok () →
          finalStatus searchPapers processDocs buildKnowledge sess = .Error)
    ∧ (∀ (sess : ResearchSession) (st : RState) (e : ProcessingError),
        searchPapers sess = .ok () → processDocs sess = .error e →
          (process_research_session searchPapers processDocs buildKnowledge
              sess st).1
            = .error e) := by
  refine ⟨?_, ?_, ?_, ?_⟩
  · exact processResearchAux_ok searchPapers processDocs buildKnowledge _ s
  · intro sess hmem
    exact processResearchAux_final_status searchPapers processDocs
      buildKnowledge s.research_queue s rfl hids sess hmem
  · intro sess _ hne
    unfold finalStatus
    cases hout : runPhases searchPapers processDocs buildKnowledge sess with
    | ok u => exact absurd (hout.trans (by rfl)) hne
    | error e => rfl
  · intro sess st e h1 h2
    simp [process_research_session, runPhases, h1, h2]

/-- Witness for C9 at a two-session queue one of whose sessions fails
its second phase. -/
theorem research_queue_error_isolation_witness :
    (twoSessionState.research_queue.map ResearchSession.id).Nodup
    ∧ ((process_research_queue phaseOk phaseFailSa phaseOk
          twoSessionState).1 = .ok ()
      ∧ (∀ sess ∈ twoSessionState.research_queue,
          (process_research_queue phaseOk phaseFailSa phaseOk
              twoSessionState).2.kv (statusKey sess.id)
            = some (statusJson (finalStatus phaseOk phaseFailSa phaseOk sess)))
      ∧ (∀ sess ∈ twoSessionState.research_queue,
          runPhases phaseOk phaseFailSa phaseOk sess ≠ .ok () →
            finalStatus phaseOk phaseFailSa phaseOk sess = .Error)
      ∧ (∀ (sess : ResearchSession) (st : RState) (e : ProcessingError),
          phaseOk sess = .ok () → phaseFailSa sess = .error e →
            (process_research_session phaseOk phaseFailSa phaseOk
                sess st).1 = .error e)) :=
  ⟨by decide,
    research_queue_error_isolation phaseOk phaseFailSa phaseOk
      twoSessionState (by decide)⟩

theorem create_chunks_ne_nil (t : List Char) : create_chunks t ≠ [] := by
  intro h
  have := congrArg List.length h
  simp [create_chunks] at this
  exact splitNl_ne_nil t this

/-- C10: whenever `process_document` succeeds, the returned
`ProcessedDocument` has a non-empty chunk list; in particular a zero-byte
non-PDF document yields exactly one chunk — the empty string at
index 0. -/
theorem chunks_nonempty
    (pdfExtract : List Nat → Except String (List Char)) (doc : Document)
    (queue : List ProcessedDocument) (pd : ProcessedDocument)
    (queue' : List ProcessedDocument)
    (hok : process_document pdfExtract doc queue = .ok (pd, queue')) :
    pd.chunks ≠ []
    ∧ (doc.content = [] → doc.metadata.content_type ≠ "application/pdf" →
        pd.chunks = [TextChunk.mk [] 0]) := by
  unfold process_document at hok
  constructor
  · split at hok
    case h_1 =>
      cases hpdf : extract_pdf_text pdfExtract doc.content with
      | error e =>
        rw [hpdf] at hok
        simp at hok
      | ok text =>
        rw [hpdf] at hok
        simp only [Except.ok.injEq, Prod.mk.injEq] at hok
        obtain ⟨hpd, hq⟩ := hok
        rw [← hpd]
        exact create_chunks_ne_nil text
    case h_2 =>
      cases hdec : utf8Decode doc.content with
      | none =>
        rw [hdec] at hok
        simp at hok
      | some text =>
        rw [hdec] at hok
        simp only [Except.ok.injEq, Prod.mk.injEq] at hok
        obtain ⟨hpd, hq⟩ := hok
        rw [← hpd]
        exact create_chunks_ne_nil text
  · intro hempty hct
    split at hok
    case h_1 heq => exact absurd heq hct
    case h_2 =>
      rw [hempty] at hok
      rw [show utf8Decode [] = some [] from rfl] at hok
      simp only [Except.ok.injEq, Prod.mk.injEq] at hok
      obtain ⟨hpd, hq⟩ := hok
      rw [← hpd]
      rfl

/-- Witness for C10 at a concrete zero-byte `text/plain` document. -/
theorem chunks_nonempty_witness :
    process_document (fun _ => Except.ok [])
        (Document.mk "d0" [] (DocumentMetadata.mk "e.txt" "text/plain" 0 0)) []
      = .ok (ProcessedDocument.mk "d0" [] [TextChunk.mk [] 0]
              (DocumentMetadata.mk "e.txt" "text/plain" 0 0),
            [ProcessedDocument.mk "d0" [] [TextChunk.mk [] 0]
              (DocumentMetadata.mk "e.txt" "text/plain" 0 0)])
    ∧ ((ProcessedDocument.mk "d0" [] [TextChunk.mk [] 0]
          (DocumentMetadata.mk "e.txt" "text/plain" 0 0)).chunks ≠ []
      ∧ ((Document.mk "d0" [] (DocumentMetadata.mk "e.txt" "text/plain" 0 0)).content
            = [] →
          (Document.mk "d0" []
              (DocumentMetadata.mk "e.txt" "text/plain" 0 0)).metadata.content_type
            ≠ "application/pdf" →
          (ProcessedDocument.mk "d0" [] [TextChunk.mk [] 0]
              (DocumentMetadata.mk "e.txt" "text/plain" 0 0)).chunks
            = [TextChunk.mk [] 0])) :=
  ⟨rfl,
    chunks_nonempty (fun _ => Except.ok [])
      (Document.mk "d0" [] (DocumentMetadata.mk "e.txt" "text/plain" 0 0)) []
      (ProcessedDocument.mk "d0" [] [TextChunk.mk [] 0]
        (DocumentMetadata.mk "e.txt" "text/plain" 0 0))
      [ProcessedDocument.mk "d0" [] [TextChunk.mk [] 0]
        (DocumentMetadata.mk "e.txt" "text/plain" 0 0)]
      rfl⟩
